import Mathlib

/-!
Shallow embedding of the oclgrind kernel-execution core (Kernel.cpp and
Device.cpp) together with the parts of its environment that the code uses
(the Memory region, the TypedValue clone and the OpenCL enumeration values
from CL/cl.h), and proofs about the embedded operations.
-/

/-- Width of size_t on the simulated 64-bit host. -/
def sizeofSizeT : Nat := 8

/-- Little-endian byte encoding of a machine integer: n bytes of v
(the encoding a store of an n-byte integer writes to memory). -/
def leBytes : Nat → Nat → List Nat
  | 0, _ => []
  | n + 1, v => v % 256 :: leBytes n (v / 256)

/-- Address-space tag of a type. The spec data model lists the four tags
Private, Local, Global, Constant (the numeric AddrSpace constants live in
common.h, outside the embedded sources). -/
inductive AddrSpace where
  | Private
  | Global
  | Constant
  | Local
deriving DecidableEq

/-- Shape of a formal kernel parameter as queried by the embedded code:
isPointerTy with a pointer address space, isVectorTy with a vector width,
or a scalar. -/
inductive ParamTy where
  | scalarTy
  | vectorTy (n : Nat)
  | pointerTy (space : AddrSpace)
deriving DecidableEq

/-- OpenCL address qualifier constant from CL/cl.h, surfaced bit-exact. -/
def CL_KERNEL_ARG_ADDRESS_GLOBAL : Nat := 0x119B

/-- OpenCL address qualifier constant from CL/cl.h, surfaced bit-exact. -/
def CL_KERNEL_ARG_ADDRESS_LOCAL : Nat := 0x119C

/-- OpenCL address qualifier constant from CL/cl.h, surfaced bit-exact. -/
def CL_KERNEL_ARG_ADDRESS_CONSTANT : Nat := 0x119D

/-- OpenCL address qualifier constant from CL/cl.h, surfaced bit-exact. -/
def CL_KERNEL_ARG_ADDRESS_PRIVATE : Nat := 0x119E

/-- TypedValue from the embedded sources: element size, element count and
the owned byte buffer. -/
structure TypedValue where
  size : Nat
  num : Nat
  data : List Nat
deriving DecidableEq

/-- Deep copy of a TypedValue; the copy duplicates size times num bytes of
the buffer (clone from the TypedValue support code, per the spec the buffer
length equals size times num). -/
def TypedValue.clone (v : TypedValue) : TypedValue :=
  ⟨v.size, v.num, v.data.take (v.size * v.num)⟩

/-- Key of the argument-binding map m_arguments: either a formal parameter
(the source keys by the llvm Argument of that index) or a module-scope
global variable (locals and constants). -/
inductive ArgKey where
  | param (index : Nat)
  | gvar (g : Nat)
deriving DecidableEq

/-- Lookup in the argument-binding map, newest binding first (map
assignment in the source overwrites; the embedding prepends and lookup
returns the newest entry). -/
def argLookup : List (ArgKey × TypedValue) → ArgKey → Option TypedValue
  | [], _ => none
  | (k, v) :: rest, key => if k = key then some v else argLookup rest key

/-- Type of a module-scope constant initializer as the embedded code
inspects it: integer of a byte width, float, or array. -/
inductive ConstType where
  | intTy (bytes : Nat)
  | floatTy
  | arrayTy (n : Nat) (elem : ConstType)

/-- Constant initializer value: an integer constant, a float constant
(kept as its 32-bit pattern), or an array of constants. -/
inductive ConstVal where
  | intVal (bytes : Nat) (value : Nat)
  | floatVal (bits : Nat)
  | arrayVal (elemTy : ConstType) (elems : List ConstVal)

/-- Size in bytes of a type, as getTypeSize from common.h computes it for
the shapes the embedded code handles. -/
def getTypeSize : ConstType → Nat
  | .intTy b => b
  | .floatTy => 4
  | .arrayTy n e => n * getTypeSize e

/-- Type of a constant initializer. -/
def ConstVal.typeOf : ConstVal → ConstType
  | .intVal b _ => .intTy b
  | .floatVal _ => .floatTy
  | .arrayVal ety es => .arrayTy es.length ety

/-- llvm Type::isPrimitiveType: true for the float-like type identifiers,
false for integers and aggregates (integer type ids come after the
primitive range in the llvm TypeID enumeration). -/
def ConstType.isPrimitive : ConstType → Bool
  | .floatTy => true
  | _ => false

/-- Kernel state: formal parameters, enumerated module-scope constants,
the required work-group size triple from metadata, the local-memory
cursor m_localMemory and the argument-binding map m_arguments. -/
structure Kernel where
  params : List ParamTy
  constants : List (Nat × ConstVal)
  reqdWorkGroupSize : Nat × Nat × Nat
  localMemory : Nat
  arguments : List (ArgKey × TypedValue)

/-- Translated from Kernel::getArgumentType: non-pointer parameters are
PRIVATE; pointer parameters map Global, Constant and Local address spaces
to the matching CL constant; any other address space takes the default
switch case, which logs and returns 0. -/
def Kernel.getArgumentType (k : Kernel) (index : Nat) : Nat :=
  match k.params.getD index ParamTy.scalarTy with
  | ParamTy.pointerTy space =>
    match space with
    | AddrSpace.Global => CL_KERNEL_ARG_ADDRESS_GLOBAL
    | AddrSpace.Constant => CL_KERNEL_ARG_ADDRESS_CONSTANT
    | AddrSpace.Local => CL_KERNEL_ARG_ADDRESS_LOCAL
    | AddrSpace.Private => 0
  | _ => CL_KERNEL_ARG_ADDRESS_PRIVATE

/-- Translated from Kernel::setArgument. An out-of-range index logs and
returns with the kernel untouched. A Local pointer parameter is bound to
a value whose buffer (allocated with value.size times value.num bytes, see
localArgAllocLen) receives the size_t local-memory cursor, and the cursor
grows by value.size in size_t arithmetic. Otherwise the value is adjusted
for vector parameters (count reset to the vector width, element size
divided by it) and a clone is recorded. -/
def Kernel.setArgument (k : Kernel) (index : Nat) (value : TypedValue) : Kernel :=
  if k.params.length ≤ index then k
  else if k.getArgumentType index = CL_KERNEL_ARG_ADDRESS_LOCAL then
    let v : TypedValue := ⟨value.size, value.num, leBytes sizeofSizeT k.localMemory⟩
    { k with
      localMemory := (k.localMemory + value.size) % 2 ^ 64,
      arguments := (ArgKey.param index, v) :: k.arguments }
  else
    let value1 : TypedValue :=
      match k.params.getD index ParamTy.scalarTy with
      | ParamTy.vectorTy n => ⟨value.size / n, n, value.data⟩
      | _ => value
    { k with arguments := (ArgKey.param index, value1.clone) :: k.arguments }

/-- Allocation extent of the buffer the Local branch of setArgument
creates: new unsigned char of value.size times value.num bytes, the
multiplication carried out in size_t arithmetic. -/
def localArgAllocLen (value : TypedValue) : Nat :=
  value.size * value.num % 2 ^ 64

/-- Extent of the write the Local branch of setArgument performs into that
buffer: a full size_t cursor value. -/
def localArgWriteLen : Nat := sizeofSizeT

/-- The cursor write of the Local branch stays inside the allocated
buffer. -/
def localArgWriteInBounds (value : TypedValue) : Prop :=
  localArgWriteLen ≤ localArgAllocLen value

/-- Modelled from the spec: Memory region of section 4.1 (Memory.cpp is
not among the embedded sources). A region keeps the next fresh base
address, the live allocations as base and size pairs, and the written
bytes as an address to byte association list, newest write first. -/
structure Memory where
  nextBase : Nat
  allocs : List (Nat × Nat)
  writes : List (Nat × Nat)
deriving DecidableEq

/-- Modelled from the spec: allocate reserves a fresh range that does not
alias a live range and returns its base address. -/
def Memory.allocateBuffer (m : Memory) (size : Nat) : Nat × Memory :=
  (m.nextBase, ⟨m.nextBase + size, (m.nextBase, size) :: m.allocs, m.writes⟩)

/-- A range lies entirely within one live allocation. -/
def Memory.inBounds (m : Memory) (addr n : Nat) : Bool :=
  m.allocs.any fun a => decide (a.1 ≤ addr) && decide (addr + n ≤ a.1 + a.2)

/-- An allocation with this base address is live. -/
def Memory.isLive (m : Memory) (addr : Nat) : Bool :=
  m.allocs.any fun a => decide (a.1 = addr)

/-- Record one written byte. -/
def Memory.writeByte (m : Memory) (a byt : Nat) : Memory :=
  { m with writes := (a, byt) :: m.writes }

/-- Write a run of bytes at consecutive addresses. -/
def Memory.storeBytes (m : Memory) (addr : Nat) : List Nat → Memory
  | [] => m
  | byt :: rest => (m.writeByte addr byt).storeBytes (addr + 1) rest

/-- Modelled from the spec: store writes exactly the given bytes when the
range lies within one live allocation and otherwise faults, leaving the
contents unchanged. -/
def Memory.store (m : Memory) (addr : Nat) (bytes : List Nat) : Memory :=
  if m.inBounds addr bytes.length then m.storeBytes addr bytes else m

/-- Newest written byte at an address. -/
def lookupWrite : List (Nat × Nat) → Nat → Option Nat
  | [], _ => none
  | w :: rest, a => if w.1 = a then some w.2 else lookupWrite rest a

/-- Byte currently stored at an address, none if never written. -/
def Memory.byteAt (m : Memory) (a : Nat) : Option Nat :=
  lookupWrite m.writes a

/-- Modelled from the spec: load returns exactly the requested bytes when
the range lies within one live allocation and otherwise faults. A byte
that was never written reads as 0. -/
def Memory.load (m : Memory) (addr n : Nat) : Option (List Nat) :=
  if m.inBounds addr n then
    some ((List.range n).map fun t => (m.byteAt (addr + t)).getD 0)
  else none

/-- Translated from Kernel::storeConstant: integer constants store their
size bytes of raw little-endian data, float constants store the 4-byte
value; any other shape takes the default case, which logs the unhandled
constant type and stores nothing. -/
def storeConstant (m : Memory) (addr : Nat) (c : ConstVal) : Memory :=
  match c with
  | ConstVal.intVal b v => m.store addr (leBytes b v)
  | ConstVal.floatVal bits => m.store addr (leBytes 4 bits)
  | ConstVal.arrayVal _ _ => m

/-- Translated from the array loop of Kernel::allocateConstants: element i
is stored at address plus i times the element size; the embedding walks
the element list carrying the running address. -/
def storeElems (m : Memory) (addr esize : Nat) : List ConstVal → Memory
  | [] => m
  | c :: rest => storeElems (storeConstant m addr c) (addr + esize) esize rest

/-- Translated from Kernel::allocateConstants: for each enumerated
constant, allocate a buffer sized to the initializer type, bind the
constant to a pointer value holding the allocated address, then fill the
buffer: arrays element by element, primitive types directly, anything
else is logged as unhandled and skipped. -/
def Kernel.allocateConstants (k : Kernel) (m : Memory) : Kernel × Memory :=
  k.constants.foldl
    (fun acc gc =>
      let ty := gc.2.typeOf
      let ad := acc.2.allocateBuffer (getTypeSize ty)
      let k1 := { acc.1 with
        arguments :=
          (ArgKey.gvar gc.1, ⟨sizeofSizeT, 1, leBytes sizeofSizeT ad.1⟩) :: acc.1.arguments }
      let m2 :=
        match gc.2 with
        | ConstVal.arrayVal ety es => storeElems ad.2 ad.1 (getTypeSize ety) es
        | c => if ty.isPrimitive then storeConstant ad.2 ad.1 c else ad.2
      (k1, m2))
    (k, m)

/-- Translated from Kernel::deallocateConstants: the body is an
unimplemented TODO in the source, so the memory is returned unchanged and
every allocation stays live. -/
def Kernel.deallocateConstants (_k : Kernel) (m : Memory) : Memory := m

/-- Identity of one work-group as Device::run constructs it: the group id
triple passed to the WorkGroup constructor. -/
structure WorkGroup where
  i : Nat
  j : Nat
  k : Nat
deriving DecidableEq

/-- Concatenation of the bodies of an indexed for loop running x from 0
to n excluded, in source order. -/
def loopConcat (f : Nat → List WorkGroup) : Nat → List WorkGroup
  | 0 => []
  | n + 1 => loopConcat f n ++ f n

/-- Element of the flat work-group array at an index, as the C array read
m_workGroups of that index. -/
def listAt (l : List WorkGroup) (n : Nat) : WorkGroup :=
  (l[n]?).getD ⟨0, 0, 0⟩

/-- Translated from the group-creation loops of Device::run: k outer, j
middle, i inner, each group stored at flat index i plus
(k times numGroups1 plus j) times numGroups0; since that flat index
advances by one per iteration, the array in index order is exactly the
creation order. -/
def createGroups (N0 N1 N2 : Nat) : List WorkGroup :=
  loopConcat
    (fun k => loopConcat
      (fun j => loopConcat (fun i => [⟨i, j, k⟩]) N0) N1) N2

/-- Translated from Device::cont: the same triple loop reads the group at
flat index i plus (k times N1 plus j) times N0 and runs it; the result is
the sequence of groups in the order they are run. -/
def contOrder (groups : List WorkGroup) (N0 N1 N2 : Nat) : List WorkGroup :=
  loopConcat
    (fun k => loopConcat
      (fun j => loopConcat
        (fun i => [listAt groups (i + (k * N1 + j) * N0)]) N0) N1) N2

/-- Normalized global range: dimensions below workDim copy globalSize,
the rest keep the initializer 1 (ndrange in Device::run). -/
def ndrangeOf (workDim : Nat) (globalSize : Nat → Nat) (d : Nat) : Nat :=
  if d < workDim then globalSize d else 1

/-- Normalized work-group size: dimensions below workDim take localSize
when it is nonzero, every other component keeps the initializer 1
(wgsize in Device::run). -/
def wgsizeOf (workDim : Nat) (localSize : Nat → Nat) (d : Nat) : Nat :=
  if d < workDim then (if localSize d ≠ 0 then localSize d else 1) else 1

/-- Normalized global offset (offset in Device::run). -/
def offsetOf (workDim : Nat) (globalOffset : Nat → Nat) (d : Nat) : Nat :=
  if d < workDim then (if globalOffset d ≠ 0 then globalOffset d else 0) else 0

/-- Observable outcome of one Device::run call: the kernel and global
memory after the launch, the normalized sizes, the group counts, the flat
work-group array in index order and the order in which Device::cont runs
the groups. -/
structure RunResult where
  kernel : Kernel
  memory : Memory
  offset : Nat → Nat
  ndrange : Nat → Nat
  wgsize : Nat → Nat
  numGroups : Nat → Nat
  workGroups : List WorkGroup
  runOrder : List WorkGroup

/-- Translated from Device::run, non-interactive path: normalize offset
and sizes, allocate constants, compute numGroups by truncating division,
create the work-groups, run them via the cont loops, destroy them and
call deallocateConstants. No work-size validation is performed anywhere
on this path. -/
def Device.run (kernel : Kernel) (globalMemory : Memory) (workDim : Nat)
    (globalOffset globalSize localSize : Nat → Nat) : RunResult :=
  let ndrange := ndrangeOf workDim globalSize
  let wgsize := wgsizeOf workDim localSize
  let offset := offsetOf workDim globalOffset
  let p := kernel.allocateConstants globalMemory
  let numGroups : Nat → Nat := fun d => ndrange d / wgsize d
  let wgs := createGroups (numGroups 0) (numGroups 1) (numGroups 2)
  let order := contOrder wgs (numGroups 0) (numGroups 1) (numGroups 2)
  let m2 := p.1.deallocateConstants p.2
  ⟨p.1, m2, offset, ndrange, wgsize, numGroups, wgs, order⟩

/-! Helper lemmas. -/

theorem leBytes_length (n : Nat) : ∀ v, (leBytes n v).length = n := by
  induction n with
  | zero => intro v; rfl
  | succ n ih => intro v; simp [leBytes, ih]

theorem argLookup_cons_self (rest : List (ArgKey × TypedValue)) (key : ArgKey)
    (v : TypedValue) : argLookup ((key, v) :: rest) key = some v := by
  simp [argLookup]

/-! Fixture kernels, values and memories used as concrete inputs. -/

/-- Empty global memory region. -/
def M0 : Memory := ⟨0, [], []⟩

/-- Kernel with a single scalar parameter. -/
def KC3 : Kernel := ⟨[ParamTy.scalarTy], [], (0, 0, 0), 0, []⟩

/-- A 4-byte argument value. -/
def vC3 : TypedValue := ⟨4, 1, [1, 2, 3, 4]⟩

/-- Kernel with a single float4 parameter. -/
def KC4 : Kernel := ⟨[ParamTy.vectorTy 4], [], (0, 0, 0), 0, []⟩

/-- A 16-byte argument value for the float4 parameter. -/
def vC4 : TypedValue := ⟨16, 1, List.replicate 16 171⟩

/-- Kernel with a single Local pointer parameter. -/
def KC5 : Kernel := ⟨[ParamTy.pointerTy AddrSpace.Local], [], (0, 0, 0), 0, []⟩

/-- A dynamic-local request of 64 bytes. -/
def vC5 : TypedValue := ⟨64, 1, []⟩

/-- A dynamic-local request of 0 bytes. -/
def vC5z : TypedValue := ⟨0, 1, []⟩

/-- Kernel with a single pointer parameter in the Private address space. -/
def KP8 : Kernel := ⟨[ParamTy.pointerTy AddrSpace.Private], [], (0, 0, 0), 0, []⟩

/-- Kernel with a single Global pointer parameter. -/
def KW8 : Kernel := ⟨[ParamTy.pointerTy AddrSpace.Global], [], (0, 0, 0), 0, []⟩

/-- A dynamic-local request of 4 bytes, smaller than a size_t. -/
def vC10 : TypedValue := ⟨4, 1, [0, 0, 0, 0]⟩

/-- C3: setArgument with an argument index at or beyond the number of
formal parameters logs the range error and returns before touching any
state, so the kernel, and in particular its argument-binding map, is
exactly what it was before the call. -/
theorem setArgument_out_of_range (k : Kernel) (index : Nat) (value : TypedValue)
    (h : k.params.length ≤ index) : k.setArgument index value = k := by
  unfold Kernel.setArgument
  rw [if_pos h]

theorem setArgument_out_of_range_witness :
    KC3.params.length ≤ 5 ∧ KC3.setArgument 5 vC3 = KC3 :=
  ⟨by decide, setArgument_out_of_range KC3 5 vC3 (by decide)⟩

/-- C4: setArgument on a vector-typed (hence non-pointer, non-Local)
parameter of width n records a binding whose element count is n and whose
element size is the passed value.size divided by n; the recorded buffer is
the clone of the adjusted value. -/
theorem setArgument_vector_binding (k : Kernel) (index n : Nat) (value : TypedValue)
    (h : index < k.params.length)
    (hv : k.params.getD index ParamTy.scalarTy = ParamTy.vectorTy n) :
    argLookup ((k.setArgument index value).arguments) (ArgKey.param index)
      = some ⟨value.size / n, n, value.data.take (value.size / n * n)⟩ := by
  unfold Kernel.setArgument
  rw [if_neg (by omega)]
  have ht : k.getArgumentType index = CL_KERNEL_ARG_ADDRESS_PRIVATE := by
    unfold Kernel.getArgumentType
    rw [hv]
  rw [ht]
  rw [if_neg (by decide)]
  rw [hv]
  exact argLookup_cons_self _ _ _

theorem setArgument_vector_binding_witness :
    0 < KC4.params.length ∧
    argLookup ((KC4.setArgument 0 vC4).arguments) (ArgKey.param 0)
      = some ⟨4, 4, List.replicate 16 171⟩ :=
  ⟨by decide, setArgument_vector_binding KC4 0 4 vC4 (by decide) rfl⟩

/-- C5 amended: setArgument on a Local pointer parameter binds that
parameter to a pointer value holding the previous local-memory cursor,
and, when the size_t addition does not wrap, the local-memory size grows
by exactly the requested size (strictly only when the request is
nonzero). -/
theorem setArgument_local_cursor (k : Kernel) (index : Nat) (value : TypedValue)
    (h : index < k.params.length)
    (hp : k.params.getD index ParamTy.scalarTy = ParamTy.pointerTy AddrSpace.Local)
    (hof : k.localMemory + value.size < 2 ^ 64) :
    argLookup ((k.setArgument index value).arguments) (ArgKey.param index)
      = some ⟨value.size, value.num, leBytes sizeofSizeT k.localMemory⟩ ∧
    (k.setArgument index value).localMemory = k.localMemory + value.size := by
  unfold Kernel.setArgument
  rw [if_neg (by omega)]
  have ht : k.getArgumentType index = CL_KERNEL_ARG_ADDRESS_LOCAL := by
    unfold Kernel.getArgumentType
    rw [hp]
  rw [ht, if_pos rfl]
  exact ⟨argLookup_cons_self _ _ _, Nat.mod_eq_of_lt hof⟩

theorem setArgument_local_cursor_witness :
    0 < KC5.params.length ∧ KC5.localMemory + vC5.size < 2 ^ 64 ∧
    (KC5.setArgument 0 vC5).localMemory = KC5.localMemory + vC5.size :=
  ⟨by decide, by decide,
    (setArgument_local_cursor KC5 0 vC5 (by decide) rfl (by decide)).2⟩

/-- C5 counterexample: a setArgument call on a Local pointer parameter
with requested size 0 leaves local_memory_size unchanged, so it does not
strictly increase. -/
theorem setArgument_local_zero_counterexample :
    KC5.params.getD 0 ParamTy.scalarTy = ParamTy.pointerTy AddrSpace.Local ∧
    vC5z.size = 0 ∧
    ¬ KC5.localMemory < (KC5.setArgument 0 vC5z).localMemory := by
  refine ⟨rfl, rfl, ?_⟩
  decide

/-- C8 amended: the address-space introspection returns PRIVATE for
scalar and vector parameters and the matching OpenCL constant for pointer
parameters tagged Global, Constant or Local; a pointer parameter with any
other address-space tag falls into the default switch case and yields 0,
a value outside the OpenCL enumeration. -/
theorem getArgumentType_enum (k : Kernel) (index : Nat) :
    (k.params.getD index ParamTy.scalarTy = ParamTy.scalarTy →
      k.getArgumentType index = CL_KERNEL_ARG_ADDRESS_PRIVATE) ∧
    (∀ n, k.params.getD index ParamTy.scalarTy = ParamTy.vectorTy n →
      k.getArgumentType index = CL_KERNEL_ARG_ADDRESS_PRIVATE) ∧
    (k.params.getD index ParamTy.scalarTy = ParamTy.pointerTy AddrSpace.Global →
      k.getArgumentType index = CL_KERNEL_ARG_ADDRESS_GLOBAL) ∧
    (k.params.getD index ParamTy.scalarTy = ParamTy.pointerTy AddrSpace.Constant →
      k.getArgumentType index = CL_KERNEL_ARG_ADDRESS_CONSTANT) ∧
    (k.params.getD index ParamTy.scalarTy = ParamTy.pointerTy AddrSpace.Local →
      k.getArgumentType index = CL_KERNEL_ARG_ADDRESS_LOCAL) ∧
    (k.params.getD index ParamTy.scalarTy = ParamTy.pointerTy AddrSpace.Private →
      k.getArgumentType index = 0) := by
  unfold Kernel.getArgumentType
  refine ⟨fun h => by rw [h], fun n h => by rw [h], fun h => by rw [h],
    fun h => by rw [h], fun h => by rw [h], fun h => by rw [h]⟩

theorem getArgumentType_enum_witness :
    KW8.params.getD 0 ParamTy.scalarTy = ParamTy.pointerTy AddrSpace.Global ∧
    KW8.getArgumentType 0 = CL_KERNEL_ARG_ADDRESS_GLOBAL :=
  ⟨rfl, (getArgumentType_enum KW8 0).2.2.1 rfl⟩

/-- C8 counterexample: a pointer parameter whose address-space tag is not
Global, Constant or Local (here the Private space) makes getArgumentType
return 0, which is none of the four OpenCL address qualifier values. -/
theorem getArgumentType_private_pointer_counterexample :
    KP8.params.getD 0 ParamTy.scalarTy = ParamTy.pointerTy AddrSpace.Private ∧
    KP8.getArgumentType 0 = 0 ∧
    KP8.getArgumentType 0 ≠ CL_KERNEL_ARG_ADDRESS_PRIVATE ∧
    KP8.getArgumentType 0 ≠ CL_KERNEL_ARG_ADDRESS_GLOBAL ∧
    KP8.getArgumentType 0 ≠ CL_KERNEL_ARG_ADDRESS_CONSTANT ∧
    KP8.getArgumentType 0 ≠ CL_KERNEL_ARG_ADDRESS_LOCAL := by
  refine ⟨rfl, rfl, ?_, ?_, ?_, ?_⟩ <;> decide

/-- C10: the Local branch of setArgument allocates value.size times
value.num bytes (in size_t arithmetic) yet writes a full size_t cursor
into the buffer; the write can stay in bounds only when value.size times
value.num is at least sizeof size_t, and any request with a smaller
product makes the write out of bounds. -/
theorem localArg_write_bounds (value : TypedValue) :
    (localArgWriteInBounds value → sizeofSizeT ≤ value.size * value.num) ∧
    (value.size * value.num < sizeofSizeT → ¬ localArgWriteInBounds value) := by
  constructor
  · intro h
    exact le_trans h (Nat.mod_le _ _)
  · intro h hc
    rw [localArgWriteInBounds, localArgWriteLen, localArgAllocLen,
      Nat.mod_eq_of_lt (lt_trans h (by norm_num [sizeofSizeT]))] at hc
    exact absurd hc (by omega)

theorem localArg_write_bounds_witness :
    vC10.size * vC10.num < sizeofSizeT ∧ ¬ localArgWriteInBounds vC10 :=
  ⟨by decide, (localArg_write_bounds vC10).2 (by decide)⟩

/-! Lemmas about the group-creation loops. -/

theorem loopConcat_length (f : Nat → List WorkGroup) (L N : Nat)
    (h : ∀ x, x < N → (f x).length = L) : (loopConcat f N).length = N * L := by
  induction N with
  | zero => simp [loopConcat]
  | succ N ih =>
    rw [loopConcat, List.length_append, ih (fun x hx => h x (by omega)),
      h N (by omega), Nat.succ_mul]

theorem loopConcat_congr (f g : Nat → List WorkGroup) (N : Nat)
    (h : ∀ x, x < N → f x = g x) : loopConcat f N = loopConcat g N := by
  induction N with
  | zero => rfl
  | succ N ih =>
    rw [loopConcat, loopConcat, ih (fun x hx => h x (by omega)), h N (by omega)]

theorem loopConcat_getElem (f : Nat → List WorkGroup) (L N q r : Nat)
    (h : ∀ x, x < N → (f x).length = L) (hq : q < N) (hr : r < L) :
    (loopConcat f N)[q * L + r]? = (f q)[r]? := by
  induction N with
  | zero => omega
  | succ N ih =>
    rw [loopConcat]
    have hlen : (loopConcat f N).length = N * L :=
      loopConcat_length f L N (fun x hx => h x (by omega))
    rw [List.getElem?_append]
    rcases Nat.lt_or_ge q N with hq' | hq'
    · have hlt : q * L + r < N * L := by
        have h1 : (q + 1) * L ≤ N * L := Nat.mul_le_mul_right L (by omega)
        have h2 : (q + 1) * L = q * L + L := by ring
        omega
      rw [if_pos (by omega)]
      exact ih (fun x hx => h x (by omega)) hq'
    · have hqN : q = N := by omega
      subst hqN
      rw [if_neg (by omega), hlen]
      congr 1
      omega

theorem loopConcat_single_getElem (g : Nat → WorkGroup) (N i : Nat) (hi : i < N) :
    (loopConcat (fun x => [g x]) N)[i]? = some (g i) := by
  induction N with
  | zero => omega
  | succ N ih =>
    rw [loopConcat]
    have hlen : (loopConcat (fun x => [g x]) N).length = N := by
      have := loopConcat_length (fun x => [g x]) 1 N (fun x _ => rfl)
      omega
    rw [List.getElem?_append]
    rcases Nat.lt_or_ge i N with hi' | hi'
    · rw [if_pos (by omega)]
      exact ih hi'
    · have hiN : i = N := by omega
      subst hiN
      rw [if_neg (by omega), hlen]
      simp

theorem createGroups_length (N0 N1 N2 : Nat) :
    (createGroups N0 N1 N2).length = N0 * N1 * N2 := by
  have h0 : ∀ j k : Nat,
      (loopConcat (fun i => [(⟨i, j, k⟩ : WorkGroup)]) N0).length = N0 := by
    intro j k
    have := loopConcat_length (fun i => [(⟨i, j, k⟩ : WorkGroup)]) 1 N0 (fun x _ => rfl)
    omega
  have h1 : ∀ k : Nat,
      (loopConcat (fun j => loopConcat (fun i => [(⟨i, j, k⟩ : WorkGroup)]) N0) N1).length
        = N1 * N0 :=
    fun k => loopConcat_length _ N0 N1 (fun j _ => h0 j k)
  have h2 := loopConcat_length _ (N1 * N0) N2 (fun k _ => h1 k)
  calc (createGroups N0 N1 N2).length = N2 * (N1 * N0) := h2
    _ = N0 * N1 * N2 := by ring

theorem createGroups_getElem (N0 N1 N2 i j k : Nat)
    (hi : i < N0) (hj : j < N1) (hk : k < N2) :
    (createGroups N0 N1 N2)[i + (k * N1 + j) * N0]? = some ⟨i, j, k⟩ := by
  have h0 : ∀ j k : Nat,
      (loopConcat (fun i => [(⟨i, j, k⟩ : WorkGroup)]) N0).length = N0 := by
    intro j k
    have := loopConcat_length (fun i => [(⟨i, j, k⟩ : WorkGroup)]) 1 N0 (fun x _ => rfl)
    omega
  have h1 : ∀ k : Nat,
      (loopConcat (fun j => loopConcat (fun i => [(⟨i, j, k⟩ : WorkGroup)]) N0) N1).length
        = N1 * N0 :=
    fun k => loopConcat_length _ N0 N1 (fun j _ => h0 j k)
  have hidx : i + (k * N1 + j) * N0 = k * (N1 * N0) + (j * N0 + i) := by ring
  have hr1 : j * N0 + i < N1 * N0 := by
    have ha : (j + 1) * N0 ≤ N1 * N0 := Nat.mul_le_mul_right N0 (by omega)
    have hb : (j + 1) * N0 = j * N0 + N0 := by ring
    omega
  rw [createGroups, hidx, loopConcat_getElem _ (N1 * N0) N2 k (j * N0 + i)
    (fun x _ => h1 x) hk hr1]
  rw [loopConcat_getElem _ N0 N1 j i (fun y _ => h0 y k) hj hi]
  exact loopConcat_single_getElem (fun x => ⟨x, j, k⟩) N0 i hi

theorem contOrder_createGroups (N0 N1 N2 : Nat) :
    contOrder (createGroups N0 N1 N2) N0 N1 N2 = createGroups N0 N1 N2 := by
  unfold contOrder
  conv_rhs => unfold createGroups
  apply loopConcat_congr
  intro k hk
  apply loopConcat_congr
  intro j hj
  apply loopConcat_congr
  intro i hi
  rw [listAt, createGroups_getElem N0 N1 N2 i j k hi hj hk]
  rfl

/-! Projection lemmas for Device.run. -/

theorem run_workGroups (kernel : Kernel) (m : Memory) (workDim : Nat)
    (gOff gSize lSize : Nat → Nat) :
    (Device.run kernel m workDim gOff gSize lSize).workGroups =
      createGroups (ndrangeOf workDim gSize 0 / wgsizeOf workDim lSize 0)
        (ndrangeOf workDim gSize 1 / wgsizeOf workDim lSize 1)
        (ndrangeOf workDim gSize 2 / wgsizeOf workDim lSize 2) := rfl

theorem run_runOrder (kernel : Kernel) (m : Memory) (workDim : Nat)
    (gOff gSize lSize : Nat → Nat) :
    (Device.run kernel m workDim gOff gSize lSize).runOrder =
      contOrder
        (createGroups (ndrangeOf workDim gSize 0 / wgsizeOf workDim lSize 0)
          (ndrangeOf workDim gSize 1 / wgsizeOf workDim lSize 1)
          (ndrangeOf workDim gSize 2 / wgsizeOf workDim lSize 2))
        (ndrangeOf workDim gSize 0 / wgsizeOf workDim lSize 0)
        (ndrangeOf workDim gSize 1 / wgsizeOf workDim lSize 1)
        (ndrangeOf workDim gSize 2 / wgsizeOf workDim lSize 2) := rfl

/-- C9: every divisor used to compute the number of groups is at least 1.
Dimensions at or beyond workDim keep the initializer 1 of the wgsize
array, and a zero localSize entry is skipped so the component also stays
1; the quotient numGroups is formed from exactly these divisors. -/
theorem run_wgsize_positive (kernel : Kernel) (m : Memory) (workDim : Nat)
    (gOff gSize lSize : Nat → Nat) (d : Nat) :
    1 ≤ (Device.run kernel m workDim gOff gSize lSize).wgsize d ∧
    (Device.run kernel m workDim gOff gSize lSize).numGroups d =
      (Device.run kernel m workDim gOff gSize lSize).ndrange d /
        (Device.run kernel m workDim gOff gSize lSize).wgsize d := by
  constructor
  · show 1 ≤ wgsizeOf workDim lSize d
    unfold wgsizeOf
    split
    · split
      · omega
      · omega
    · omega
  · rfl

/-- C1 amended: Device::run performs no work-size validation and never
fails. Zero local sizes and dimensions at or beyond workDim are replaced
by 1, num_groups comes from truncating division, the required work-group
size of the kernel is ignored, and the product of the three group counts
of work-groups is always created. -/
theorem run_no_validation (kernel : Kernel) (m : Memory) (workDim : Nat)
    (gOff gSize lSize : Nat → Nat) :
    ((Device.run kernel m workDim gOff gSize lSize).workGroups).length =
      ndrangeOf workDim gSize 0 / wgsizeOf workDim lSize 0 *
        (ndrangeOf workDim gSize 1 / wgsizeOf workDim lSize 1) *
        (ndrangeOf workDim gSize 2 / wgsizeOf workDim lSize 2) := by
  rw [run_workGroups, createGroups_length]

/-- Kernel whose metadata demands a required work-group size of 4 by 1 by
1 (scenario S2 of the spec). -/
def KR : Kernel := ⟨[], [], (4, 1, 1), 0, []⟩

/-- Global size 4 by 1 by 1. -/
def gsR : Nat → Nat := fun d => if d = 0 then 4 else 1

/-- Local size 2 by 1 by 1, violating the required work-group size. -/
def lsR : Nat → Nat := fun d => if d = 0 then 2 else 1

/-- Zero global offset. -/
def goR : Nat → Nat := fun _ => 0

/-- C1 counterexample: with required work-group size 4 by 1 by 1 and
supplied local size 2 by 1 by 1 the launch does not fail: Device::run
creates two work-groups, so no InvalidWorkSize error precedes group
creation. -/
theorem run_reqd_mismatch_counterexample :
    KR.reqdWorkGroupSize = (4, 1, 1) ∧ lsR 0 = 2 ∧ lsR 0 ≠ 4 ∧
    ((Device.run KR M0 3 goR gsR lsR).workGroups).length = 2 ∧
    (Device.run KR M0 3 goR gsR lsR).workGroups ≠ [] := by
  refine ⟨rfl, rfl, by decide, by decide, by decide⟩

/-- C2: for a three-dimensional launch whose local sizes divide the
global sizes, Device::run creates exactly the product of the per-axis
quotients of work-groups, the group with id (i, j, k) sits at flat index
i + (k * numGroups1 + j) * numGroups0, and Device::cont runs the groups
in exactly that row-major array order. -/
theorem run_decomposition (kernel : Kernel) (m : Memory)
    (gOff gSize lSize : Nat → Nat)
    (hdvd : ∀ d, d < 3 → lSize d ∣ gSize d) :
    ((Device.run kernel m 3 gOff gSize lSize).workGroups).length =
      gSize 0 / lSize 0 * (gSize 1 / lSize 1) * (gSize 2 / lSize 2) ∧
    (∀ i j k : Nat, i < gSize 0 / lSize 0 → j < gSize 1 / lSize 1 →
      k < gSize 2 / lSize 2 →
      ((Device.run kernel m 3 gOff gSize lSize).workGroups)[i + (k * (gSize 1 / lSize 1) + j) * (gSize 0 / lSize 0)]?
        = some ⟨i, j, k⟩) ∧
    (Device.run kernel m 3 gOff gSize lSize).runOrder =
      (Device.run kernel m 3 gOff gSize lSize).workGroups := by
  have hN : ∀ d, d < 3 →
      ndrangeOf 3 gSize d / wgsizeOf 3 lSize d = gSize d / lSize d := by
    intro d hd
    unfold ndrangeOf wgsizeOf
    rw [if_pos hd, if_pos hd]
    by_cases hz : lSize d = 0
    · have hg : gSize d = 0 := by
        have hzd := hdvd d hd
        rw [hz] at hzd
        exact Nat.eq_zero_of_zero_dvd hzd
      simp [hz, hg]
    · simp [hz]
  have e0 := hN 0 (by omega)
  have e1 := hN 1 (by omega)
  have e2 := hN 2 (by omega)
  refine ⟨?_, ?_, ?_⟩
  · rw [run_workGroups, e0, e1, e2, createGroups_length]
  · intro i j k hi hj hk
    rw [run_workGroups, e0, e1, e2]
    exact createGroups_getElem _ _ _ i j k hi hj hk
  · rw [run_runOrder, run_workGroups, e0, e1, e2, contOrder_createGroups]

/-- Global size 4 by 2 by 2 for the decomposition witness. -/
def gsW : Nat → Nat := fun d => if d = 0 then 4 else 2

/-- Local size 2 by 1 by 2 for the decomposition witness. -/
def lsW : Nat → Nat := fun d => if d = 0 then 2 else if d = 1 then 1 else 2

theorem run_decomposition_witness :
    (∀ d, d < 3 → lsW d ∣ gsW d) ∧
    ((Device.run KC3 M0 3 goR gsW lsW).workGroups).length = 4 :=
  ⟨by decide, (run_decomposition KC3 M0 goR gsW lsW (by decide)).1⟩

/-! Lemmas about the memory region and constant initialization. -/

theorem storeBytes_allocs (bytes : List Nat) :
    ∀ (m : Memory) (addr : Nat), (m.storeBytes addr bytes).allocs = m.allocs := by
  induction bytes with
  | nil => intro m addr; rfl
  | cons b rest ih =>
    intro m addr
    simp only [Memory.storeBytes]
    exact ih _ _

theorem store_allocs (m : Memory) (addr : Nat) (bytes : List Nat) :
    (m.store addr bytes).allocs = m.allocs := by
  unfold Memory.store
  split
  · exact storeBytes_allocs bytes m addr
  · rfl

theorem storeConstant_allocs (m : Memory) (addr : Nat) (c : ConstVal) :
    (storeConstant m addr c).allocs = m.allocs := by
  cases c with
  | intVal b v => exact store_allocs m addr _
  | floatVal bits => exact store_allocs m addr _
  | arrayVal ety es => rfl

theorem storeElems_allocs (es : List ConstVal) :
    ∀ (m : Memory) (addr esize : Nat),
      (storeElems m addr esize es).allocs = m.allocs := by
  induction es with
  | nil => intros; rfl
  | cons c rest ih =>
    intro m addr esize
    simp only [storeElems]
    rw [ih, storeConstant_allocs]

theorem inBounds_congr (m₁ m₂ : Memory) (h : m₁.allocs = m₂.allocs)
    (addr n : Nat) : m₁.inBounds addr n = m₂.inBounds addr n := by
  unfold Memory.inBounds
  rw [h]

theorem byteAt_writeByte_self (m : Memory) (a byt : Nat) :
    (m.writeByte a byt).byteAt a = some byt := by
  simp [Memory.writeByte, Memory.byteAt, lookupWrite]

theorem byteAt_writeByte_ne (m : Memory) (a b byt : Nat) (h : a ≠ b) :
    (m.writeByte a byt).byteAt b = m.byteAt b := by
  simp [Memory.writeByte, Memory.byteAt, lookupWrite, h]

theorem byteAt_storeBytes_below (bytes : List Nat) :
    ∀ (m : Memory) (addr a : Nat), a < addr →
      (m.storeBytes addr bytes).byteAt a = m.byteAt a := by
  induction bytes with
  | nil => intros; rfl
  | cons b rest ih =>
    intro m addr a ha
    simp only [Memory.storeBytes]
    rw [ih _ _ _ (by omega), byteAt_writeByte_ne _ _ _ _ (by omega)]

theorem byteAt_storeBytes (bytes : List Nat) :
    ∀ (m : Memory) (addr t : Nat), t < bytes.length →
      (m.storeBytes addr bytes).byteAt (addr + t) = bytes[t]? := by
  induction bytes with
  | nil => intro m addr t ht; simp at ht
  | cons b rest ih =>
    intro m addr t ht
    simp only [Memory.storeBytes]
    cases t with
    | zero =>
      rw [byteAt_storeBytes_below rest _ _ _ (show addr + 0 < addr + 1 by omega)]
      have hself : (m.writeByte addr b).byteAt (addr + 0) = some b :=
        byteAt_writeByte_self m addr b
      rw [hself]
      simp
    | succ t =>
      have he : addr + (t + 1) = (addr + 1) + t := by omega
      rw [he, ih _ _ _ (by simpa using ht)]
      simp

theorem byteAt_storeConstant_below (m : Memory) (addr a : Nat) (c : ConstVal)
    (h : a < addr) : (storeConstant m addr c).byteAt a = m.byteAt a := by
  cases c with
  | intVal b v =>
    simp only [storeConstant, Memory.store]
    split
    · exact byteAt_storeBytes_below _ _ _ _ h
    · rfl
  | floatVal bits =>
    simp only [storeConstant, Memory.store]
    split
    · exact byteAt_storeBytes_below _ _ _ _ h
    · rfl
  | arrayVal ety es => rfl

theorem byteAt_storeElems_below (es : List ConstVal) :
    ∀ (m : Memory) (addr esize a : Nat), a < addr →
      (storeElems m addr esize es).byteAt a = m.byteAt a := by
  induction es with
  | nil => intros; rfl
  | cons c rest ih =>
    intro m addr esize a ha
    simp only [storeElems]
    rw [ih _ _ _ _ (by omega), byteAt_storeConstant_below _ _ _ _ ha]

theorem storeElems_read (b : Nat) (vs : List Nat) :
    ∀ (m : Memory) (addr : Nat),
      (∀ j, j < vs.length → m.inBounds (addr + j * b) b = true) →
      ∀ i, i < vs.length → ∀ t, t < b →
        (storeElems m addr b (vs.map fun v => ConstVal.intVal b v)).byteAt
            (addr + i * b + t)
          = (leBytes b (vs.getD i 0))[t]? := by
  induction vs with
  | nil => intro m addr hin i hi; simp at hi
  | cons v rest ih =>
    intro m addr hin i hi t ht
    simp only [List.map_cons, storeElems]
    have hin0 : m.inBounds addr (leBytes b v).length = true := by
      have h0 := hin 0 (by simp)
      rw [leBytes_length]
      simpa using h0
    have hsc : storeConstant m addr (ConstVal.intVal b v)
        = m.storeBytes addr (leBytes b v) := by
      simp only [storeConstant, Memory.store]
      rw [if_pos hin0]
    rw [hsc]
    cases i with
    | zero =>
      have h1 : addr + 0 * b + t = addr + t := by omega
      rw [h1, byteAt_storeElems_below _ _ _ _ _ (by omega),
        byteAt_storeBytes _ _ _ _ (by rw [leBytes_length]; exact ht)]
      rfl
    | succ i =>
      have h2 : addr + (i + 1) * b + t = addr + b + i * b + t := by
        have hm : (i + 1) * b = i * b + b := by ring
        omega
      have hall : (m.storeBytes addr (leBytes b v)).allocs = m.allocs :=
        storeBytes_allocs _ _ _
      have hin' : ∀ j, j < rest.length →
          (m.storeBytes addr (leBytes b v)).inBounds (addr + b + j * b) b = true := by
        intro j hj
        rw [inBounds_congr _ m hall]
        have h3 : addr + b + j * b = addr + (j + 1) * b := by
          have hm : (j + 1) * b = j * b + b := by ring
          omega
        rw [h3]
        exact hin (j + 1) (by simp; omega)
      have hrec := ih (m.storeBytes addr (leBytes b v)) (addr + b) hin' i
        (by simpa using hi) t ht
      rw [h2, hrec]
      simp [List.getD]

/-- C6: for a module-scope constant whose initializer is an array of
integer constants, allocateConstants allocates a buffer of the array
size in the passed (global) region, binds the constant to a pointer
value holding the allocated address, and writes element i of the
initializer at offset i times the element size, so reading the region at
that offset yields exactly the little-endian bytes of element i. -/
theorem allocateConstants_int_array (k : Kernel) (m : Memory) (g b : Nat)
    (vs : List Nat)
    (hk : k.constants
      = [(g, ConstVal.arrayVal (ConstType.intTy b) (vs.map fun v => ConstVal.intVal b v))]) :
    argLookup ((k.allocateConstants m).1.arguments) (ArgKey.gvar g)
      = some ⟨sizeofSizeT, 1, leBytes sizeofSizeT m.nextBase⟩ ∧
    (m.nextBase, vs.length * b) ∈ ((k.allocateConstants m).2).allocs ∧
    (∀ i, i < vs.length →
      ((k.allocateConstants m).2).load (m.nextBase + i * b) b
        = some (leBytes b (vs.getD i 0))) := by
  have hstep : k.allocateConstants m =
      ({ k with arguments :=
          (ArgKey.gvar g, ⟨sizeofSizeT, 1, leBytes sizeofSizeT m.nextBase⟩) :: k.arguments },
       storeElems
         ⟨m.nextBase + vs.length * b, (m.nextBase, vs.length * b) :: m.allocs, m.writes⟩
         m.nextBase b (vs.map fun v => ConstVal.intVal b v)) := by
    unfold Kernel.allocateConstants
    simp [ConstVal.typeOf, getTypeSize, Memory.allocateBuffer, hk]
  rw [hstep]
  dsimp only
  set m1 : Memory :=
    ⟨m.nextBase + vs.length * b, (m.nextBase, vs.length * b) :: m.allocs, m.writes⟩ with hm1
  have hallocs : (storeElems m1 m.nextBase b
      (vs.map fun v => ConstVal.intVal b v)).allocs = m1.allocs :=
    storeElems_allocs _ _ _ _
  have hinb : ∀ j, j < vs.length → m1.inBounds (m.nextBase + j * b) b = true := by
    intro j hj
    have hmul : (j + 1) * b ≤ vs.length * b := Nat.mul_le_mul_right b (by omega)
    have hexp : (j + 1) * b = j * b + b := by ring
    simp only [hm1, Memory.inBounds, List.any_cons, Bool.or_eq_true,
      Bool.and_eq_true, decide_eq_true_eq]
    exact Or.inl ⟨by omega, by omega⟩
  refine ⟨argLookup_cons_self _ _ _, ?_, ?_⟩
  · rw [hallocs, hm1]
    exact List.mem_cons_self _ _
  · intro i hi
    have hread := storeElems_read b vs m1 m.nextBase hinb i hi
    unfold Memory.load
    rw [if_pos ?hin]
    case hin =>
      rw [inBounds_congr _ m1 hallocs]
      exact hinb i hi
    congr 1
    apply List.ext_getElem
    · simp [leBytes_length]
    · intro t ht1 ht2
      have hlt : t < b := by simpa using ht1
      rw [List.getElem_map, List.getElem_range, hread t hlt,
        List.getElem?_eq_getElem (show t < (leBytes b (vs.getD i 0)).length by
          rw [leBytes_length]; exact hlt)]
      rfl

/-- Kernel with one module-scope constant, the array int T of four
elements 7, 8, 9, 10 (scenario S6 of the spec). -/
def KConst : Kernel :=
  ⟨[], [(0, ConstVal.arrayVal (ConstType.intTy 4)
      ([7, 8, 9, 10].map fun v => ConstVal.intVal 4 v))], (0, 0, 0), 0, []⟩

theorem allocateConstants_int_array_witness :
    KConst.constants
      = [(0, ConstVal.arrayVal (ConstType.intTy 4)
          ([7, 8, 9, 10].map fun v => ConstVal.intVal 4 v))] ∧
    ((KConst.allocateConstants M0).2).load (M0.nextBase + 2 * 4) 4
      = some (leBytes 4 9) :=
  ⟨rfl, (allocateConstants_int_array KConst M0 0 4 [7, 8, 9, 10] rfl).2.2 2 (by decide)⟩

/-- C7: deallocateConstants is an empty TODO stub in the source; on the
concrete kernel of scenario S6 it returns the memory unchanged and the
buffer that allocateConstants created in the global region stays live,
contradicting the specified release of those buffers. -/
theorem deallocateConstants_noop_example :
    Kernel.deallocateConstants (KConst.allocateConstants M0).1
        (KConst.allocateConstants M0).2
      = (KConst.allocateConstants M0).2 ∧
    (Kernel.deallocateConstants (KConst.allocateConstants M0).1
        (KConst.allocateConstants M0).2).isLive 0 = true ∧
    (0, 16) ∈ (Kernel.deallocateConstants (KConst.allocateConstants M0).1
        (KConst.allocateConstants M0).2).allocs := by
  refine ⟨rfl, by decide, by decide⟩
